import Mathlib

/-!
Verification of the claude-plugins watch-script suite.

Shallow embedding, in Lean, of the pure cores of the Python sources:
- `providers/renderdotcom.py` / `providers/render.py` — provider status mapping
- `watch-deploys.py` — plugin fetch protocol, refresh cycle, table layout
- `watch-gh-actions.py` — table layout, duration formatting
- `watch-agents.py` — duration formatting, card viewport scrolling
- `watch-beads.py` — list viewport scrolling, refresh clamping
- `watch-dashboard/watch_dashboard/config.py` — config file reading
- `watch-dashboard/watch_dashboard/tabs/actions.py` — duration formatting

I/O boundaries (file system state, subprocess outcomes, raw JSON lines)
are represented by explicit inductive data fed to the embedded functions.
All definitions in the first half of the file; all theorems in the second.
-/

namespace RenderProvider

/-- Embeds `STATUS_MAP` from `providers/renderdotcom.py` (identical in
`providers/render.py`): the provider's raw-status lookup table. -/
def STATUS_MAP : List (String × String) :=
  [("created", "pending"),
   ("build_in_progress", "building"),
   ("update_in_progress", "deploying"),
   ("live", "live"),
   ("build_failed", "failed"),
   ("update_failed", "failed"),
   ("canceled", "cancelled"),
   ("deactivated", "cancelled")]

/-- Embeds `STATUS_MAP.get(status_raw, status_raw)` from `cmd_list`:
Python dict lookup with the raw code itself as the fallback default. -/
def statusMapGet (status_raw : String) : String :=
  ((STATUS_MAP.find? (fun p => p.1 == status_raw)).map Prod.snd).getD status_raw

/-- The status fields of the record dict built by `cmd_list`; `none`
models a dict key that was never assigned. -/
structure DeployStatusPair where
  build_status : Option String := none
  deploy_status : Option String := none
deriving DecidableEq

/-- Embeds the "Map build/deploy status" branch chain of `cmd_list`
(`renderdotcom.py` lines 205-227, identically `render.py` lines 159-182):
assigns `record["build_status"]` and `record["deploy_status"]` from the
mapped status, splitting a generic `failed` on the raw code. -/
def setStatusFields (status_raw : String) (rec : DeployStatusPair) : DeployStatusPair :=
  let mapped_status := statusMapGet status_raw
  if mapped_status = "pending" ∨ mapped_status = "building" then
    { rec with build_status := some mapped_status, deploy_status := some "pending" }
  else if mapped_status = "deploying" then
    { rec with build_status := some "success", deploy_status := some "deploying" }
  else if mapped_status = "live" then
    { rec with build_status := some "success", deploy_status := some "live" }
  else if mapped_status = "failed" then
    if status_raw = "build_failed" then
      { rec with build_status := some "failed", deploy_status := some "pending" }
    else
      { rec with build_status := some "success", deploy_status := some "failed" }
  else if mapped_status = "cancelled" then
    { rec with build_status := some "cancelled", deploy_status := some "cancelled" }
  else
    { rec with build_status := some mapped_status, deploy_status := some mapped_status }

/-- The canonical status enum named by the spec. -/
def canonicalEnum : List String :=
  ["pending", "building", "deploying", "live", "failed", "cancelled", "unknown"]

/-- The status vocabulary the code actually emits for mapped raw codes:
the spec's enum minus `unknown`, plus `success` (used for the build phase
once the build is over). -/
def emittedEnum : List String :=
  ["pending", "building", "deploying", "live", "failed", "cancelled", "success"]

end RenderProvider

namespace WatchAgents

/-- Embeds `elapsed_str` from `watch-agents.py`: negative inputs are
clamped to zero, then seconds / minutes+seconds / hours+minutes. -/
def elapsed_str (seconds : Int) : String :=
  let s := if seconds < 0 then 0 else seconds
  if s < 60 then toString s ++ "s"
  else if s < 3600 then toString (s / 60) ++ "m " ++ toString (s % 60) ++ "s"
  else toString (s / 3600) ++ "h " ++ toString (s % 3600 / 60) ++ "m"

/-- Embeds the `j` / KEY_DOWN branch of `main` in `watch-agents.py`
(run only when `total > 0`): clamp the selection upward, then scroll just
enough to keep the selected card visible. Returns the new
`(selected_idx, scroll_offset)`. -/
def move_down (total visible_cards sel scroll : Int) : Int × Int :=
  let sel2 := min (sel + 1) (total - 1)
  let scroll2 := if scroll + visible_cards ≤ sel2 then sel2 - visible_cards + 1 else scroll
  (sel2, scroll2)

/-- Embeds the `k` / KEY_UP branch of `main` in `watch-agents.py`
(run only when `total > 0`). -/
def move_up (total visible_cards sel scroll : Int) : Int × Int :=
  let sel2 := max (sel - 1) 0
  let scroll2 := if sel2 < scroll then sel2 else scroll
  (sel2, scroll2)

end WatchAgents

namespace GHActions

/-- Embeds `fmt_duration` from `watch-gh-actions.py`: `None` or negative
inputs yield the empty string, otherwise the same three-band format. -/
def fmt_duration : Option Int → String
  | none => ""
  | some seconds =>
    if seconds < 0 then ""
    else if seconds < 60 then toString seconds ++ "s"
    else if seconds < 3600 then toString (seconds / 60) ++ "m " ++ toString (seconds % 60) ++ "s"
    else toString (seconds / 3600) ++ "h " ++ toString (seconds % 3600 / 60) ++ "m"

end GHActions

namespace DashboardActions

/-- Embeds `_fmt_duration` from `watch_dashboard/tabs/actions.py`;
its body is line-for-line the one of `fmt_duration` in
`watch-gh-actions.py`. -/
def fmt_duration_dash : Option Int → String
  | none => ""
  | some seconds =>
    if seconds < 0 then ""
    else if seconds < 60 then toString seconds ++ "s"
    else if seconds < 3600 then toString (seconds / 60) ++ "m " ++ toString (seconds % 60) ++ "s"
    else toString (seconds / 3600) ++ "h " ++ toString (seconds % 3600 / 60) ++ "m"

end DashboardActions

/-- The output format shared by the three duration formatters, stated
over natural-number seconds as the spec describes it: `Ns` below one
minute, `Mm Ss` below one hour, `Hh Mm` from one hour on. -/
def durationSpec (s : Nat) : String :=
  if s < 60 then toString s ++ "s"
  else if s < 3600 then toString (s / 60) ++ "m " ++ toString (s % 60) ++ "s"
  else toString (s / 3600) ++ "h " ++ toString (s % 3600 / 60) ++ "m"

namespace DashboardConfig

/-- A Python JSON value, restricted to the shapes the config code
touches: strings and string-keyed dicts. -/
inductive PyVal where
  | str (s : String)
  | dict (fields : List (String × PyVal))

/-- A parsed configuration dict. -/
abbrev ConfigDict := List (String × PyVal)

/-- The exceptions `config_read` catches. -/
inductive ReadErr where
  | fileNotFoundError
  | jsonDecodeError

/-- The state of the config file on disk, as it determines the outcome
of `open` + `json.load`. -/
inductive FileState where
  | missing
  | malformedJson
  | parsed (cfg : ConfigDict)

/-- Embeds `open(config_file)` followed by `json.load(f)`: a missing
file raises FileNotFoundError, malformed JSON raises JSONDecodeError,
otherwise the parsed dict is returned. -/
def openAndLoad : FileState → Except ReadErr ConfigDict
  | .missing => .error .fileNotFoundError
  | .malformedJson => .error .jsonDecodeError
  | .parsed cfg => .ok cfg

/-- Embeds `config_read` from `watch_dashboard/config.py` (identical in
`watch-deploys.py`): the parsed dict, or the empty dict when
FileNotFoundError or JSONDecodeError is raised. -/
def config_read (fs : FileState) : ConfigDict :=
  match openAndLoad fs with
  | .ok d => d
  | .error .fileNotFoundError => []
  | .error .jsonDecodeError => []

/-- Python `dict.get(key)`: first binding for the key, if any. -/
def dictGet (d : ConfigDict) (key : String) : Option PyVal :=
  (d.find? (fun p => p.1 == key)).map Prod.snd

/-- Python truthiness for the modelled values: the empty string and the
empty dict are falsy. -/
def PyVal.truthy : PyVal → Bool
  | .str s => !(s == "")
  | .dict l => !l.isEmpty

/-- Embeds `config_get_provider`: `cfg.get("provider") or None`. -/
def config_get_provider (fs : FileState) : Option PyVal :=
  match dictGet (config_read fs) "provider" with
  | some v => if v.truthy then some v else none
  | none => none

end DashboardConfig

namespace WatchDeploys

/-- A record emitted by a provider, modelled opaquely by the JSON text
of its stdout line. -/
abbrev RawRecord := String

/-- One line of plugin stdout, as `fetch_deploys` classifies it:
blank after stripping, malformed JSON, or a well-formed record. -/
inductive PLine where
  | blank
  | malformed (text : String)
  | record (r : RawRecord)

/-- The record a line contributes, if any. -/
def PLine.parsedRecord : PLine → Option RawRecord
  | .record r => some r
  | _ => none

/-- Embeds the stdout loop of `fetch_deploys` (lines 194-205): blank
lines are skipped, malformed lines are logged and skipped, well-formed
lines are appended in order. -/
def parseStdoutLines (ls : List PLine) : List RawRecord :=
  ls.foldl
    (fun records l =>
      match l with
      | .blank => records
      | .malformed _ => records
      | .record r => records ++ [r])
    []

/-- Outcome of `subprocess.run([script, "list"], ...)`. -/
inductive RunOutcome where
  | completed (returncode : Int) (stdoutLines : List PLine)
  | timeoutExpired
  | fileNotFound

/-- Embeds `fetch_deploys` from `watch-deploys.py` (lines 158-211): an
unconfigured provider or a non-executable script returns the empty list;
a run that times out, raises FileNotFoundError, or exits non-zero
returns `None` (`none` here); a clean exit returns the parsed records. -/
def fetch_deploys (providerConfigured : Bool) (scriptExecutable : Bool)
    (run : RunOutcome) : Option (List RawRecord) :=
  if !providerConfigured then some []
  else if !scriptExecutable then some []
  else
    match run with
    | .completed rc out => if rc ≠ 0 then none else some (parseStdoutLines out)
    | .timeoutExpired => none
    | .fileNotFound => none

/-- The mutable fields of `DeployWatchApp` that `do_refresh` touches. -/
structure AppState where
  cached_records : List RawRecord
  is_fetching : Bool
  fetch_error : String
  last_fetch_time : Int

/-- Embeds `DeployWatchApp.do_refresh` (lines 376-395): mark fetching
and clear the error, then either set the error indicator (fetch failure,
cache untouched) or replace the cache wholesale (fetch success), stamp
the time, and clear the fetching flag. -/
def do_refresh (fetched : Option (List RawRecord)) (now : Int) (st : AppState) : AppState :=
  let st1 := { st with is_fetching := true, fetch_error := "" }
  let st2 :=
    match fetched with
    | none => { st1 with fetch_error := "Provider error" }
    | some records => { st1 with cached_records := records }
  { st2 with last_fetch_time := now, is_fetching := false }

end WatchDeploys

namespace WatchBeads

/-- Embeds `BeadsTUI.adjust_scroll` (`watch-beads.py` lines 194-199):
scroll up just enough if the cursor is above the window, down just
enough if it is below. -/
def adjust_scroll (vis cursor scroll : Int) : Int :=
  if cursor < scroll then cursor
  else if scroll + vis ≤ cursor then cursor - vis + 1
  else scroll

/-- Embeds the cursor clamp at the end of `BeadsTUI.load_tickets`
(lines 167-176): an empty list resets the cursor, an out-of-range cursor
is clamped to the last row. -/
def load_tickets_clamp_cursor (count cursor : Int) : Int :=
  if count = 0 then 0
  else if count ≤ cursor then count - 1
  else cursor

/-- The four ways `BeadsTUI.load_tickets` (lines 148-176) can go: the
`bd` binary is missing (early return, tickets emptied), the `.beads`
directory is missing (early return, tickets emptied), `bd list` fails
or times out (early return, tickets kept), or the output parses to
`count` tickets (list replaced, cursor clamped). -/
inductive LoadOutcome where
  | bdMissing
  | beadsDirMissing
  | runFailed
  | parsed (count : Int)

/-- The viewport fields of `BeadsTUI` that a refresh touches: the row
count of `self.tickets`, `self.cursor`, and `self.scroll`. -/
structure BeadsView where
  count : Int
  cursor : Int
  scroll : Int

/-- Embeds `BeadsTUI.load_tickets` (lines 148-176): the two missing-
prerequisite paths set `self.tickets = []` and return without touching
the cursor; a failed `bd list` returns with tickets and cursor
untouched; only the successful parse path replaces the list and clamps
the cursor. (The summary and error-message fields are not modelled.) -/
def load_tickets (outcome : LoadOutcome) (st : BeadsView) : BeadsView :=
  match outcome with
  | .bdMissing => { st with count := 0 }
  | .beadsDirMissing => { st with count := 0 }
  | .runFailed => st
  | .parsed count =>
    { st with count := count, cursor := load_tickets_clamp_cursor count st.cursor }

/-- One refresh-then-render cycle of the list viewport: `load_tickets`,
then the following `render_list` runs `adjust_scroll` only when the
list is nonempty (the empty branch shows a placeholder and leaves the
scroll offset untouched). -/
def beads_refresh_view (outcome : LoadOutcome) (st : BeadsView) (vis : Int) : BeadsView :=
  let st1 := load_tickets outcome st
  { st1 with scroll := if st1.count = 0 then st1.scroll else adjust_scroll vis st1.cursor st1.scroll }

end WatchBeads

/-- The viewport invariant the spec states for a selection/scroll pair:
nonnegative scroll with the selection inside the visible window. -/
def scrollInv (vis sel scroll : Int) : Prop :=
  0 ≤ scroll ∧ scroll ≤ sel ∧ sel < scroll + vis

instance (vis sel scroll : Int) : Decidable (scrollInv vis sel scroll) := by
  unfold scrollInv; infer_instance

/-- A scroll offset valid for a given row count: nonnegative and at most
the last row index (0 when the list is empty). -/
def scrollInRange (count scroll : Int) : Prop :=
  0 ≤ scroll ∧ scroll ≤ max (count - 1) 0

instance (count scroll : Int) : Decidable (scrollInRange count scroll) := by
  unfold scrollInRange; infer_instance

namespace TableLayout

/-- One table cell as the width computation consumes it: the display
length of its text, and whether it shows an active status (for which the
status columns reserve two extra spinner characters). -/
structure CellD where
  len : Nat
  active : Bool

/-- Embeds one row's pass of the "Calculate column widths" loop in
`DeployWatchApp.render_table` (`watch-deploys.py` lines 503-509) and
`GHActionsApp.render_table` (`watch-gh-actions.py` lines 334-340):
`widths[i] = max(widths[i], len(cell))`, plus spinner room on the status
columns when the cell is an active status. -/
def updRow (statusCols : List Nat) : List Nat → List CellD → Nat → List Nat
  | [], _, _ => []
  | ws, [], _ => ws
  | w :: ws, c :: cs, i =>
    let w1 := max w c.len
    let w2 := if i ∈ statusCols ∧ c.active then max w1 (c.len + 2) else w1
    w2 :: updRow statusCols ws cs (i + 1)

/-- Content-based column widths: header lengths, then the row loop. -/
def contentWidths (headers statusCols : List Nat) (rows : List (List CellD)) : List Nat :=
  rows.foldl (fun ws r => updRow statusCols ws r 0) headers

/-- Embeds `widths = [w + 2 for w in widths]` (one padding char each side). -/
def padWidths (ws : List Nat) : List Nat := ws.map (· + 2)

/-- Embeds the widest-column scan of the shrink loop: in
`watch-deploys.py` (lines 524-530) a left-to-right scan keeping the
first strictly-widest column among those wider than 6; in
`watch-gh-actions.py` (line 362) `max(range(n_cols), key=...)` with key
0 for columns at most 6 wide, which picks the same leftmost widest
column and reports nothing shrinkable the same way. -/
def findWidestAux : List Nat → Nat → Option Nat → Nat → Option Nat
  | [], _, best, _ => best
  | w :: rest, i, best, bestW =>
    if 6 < w ∧ bestW < w then findWidestAux rest (i + 1) (some i) w
    else findWidestAux rest (i + 1) best bestW

/-- Index of the leftmost widest column wider than 6, if any. -/
def findWidest (ws : List Nat) : Option Nat := findWidestAux ws 0 none 0

/-- Embeds `widths[widest] -= 1`. -/
def decAt (ws : List Nat) (i : Nat) : List Nat := ws.set i (ws.getD i 0 - 1)

/-- Embeds the `while excess > 0` shrink loop shared by both render
functions: each iteration reduces the leftmost widest column wider than
6 by one unit and the excess by one; the loop stops when the excess is
gone or no column is wider than 6. The remaining excess is the loop
counter, so the Python loop's termination measure is structural here. -/
def shrinkLoop : Nat → List Nat → List Nat
  | 0, ws => ws
  | e + 1, ws =>
    match findWidest ws with
    | none => ws
    | some i => shrinkLoop e (decAt ws i)

/-- Embeds the "Shrink to fit terminal width" block of
`DeployWatchApp.render_table` (`watch-deploys.py` lines 514-534): if the
total including separators exceeds the terminal width, first shrink the
message column (index 1) down to at most 12, then run the general
widest-first loop on the remaining excess. -/
def shrinkToFit (ws : List Nat) (maxX : Nat) : List Nat :=
  let total := ws.sum + ws.length + 1
  if total ≤ maxX then ws
  else
    let excess := total - maxX
    let w1 := ws.getD 1 0
    if 12 < w1 then
      let c := min (w1 - 12) excess
      shrinkLoop (excess - c) (ws.set 1 (w1 - c))
    else shrinkLoop excess ws

/-- Embeds the "Shrink to fit terminal width" block of
`GHActionsApp.render_table` (`watch-gh-actions.py` lines 345-366): first
the Workflow column (index 0) down to at most 12, then the Branch column
(index 1) down to at most 8 if excess remains, then the general loop. -/
def shrinkToFitGH (ws : List Nat) (maxX : Nat) : List Nat :=
  let total := ws.sum + ws.length + 1
  if total ≤ maxX then ws
  else
    let e0 := total - maxX
    let w0 := ws.getD 0 0
    let ws1 := if 12 < w0 then ws.set 0 (w0 - min (w0 - 12) e0) else ws
    let e1 := if 12 < w0 then e0 - min (w0 - 12) e0 else e0
    let w1 := ws1.getD 1 0
    let ws2 := if 0 < e1 ∧ 8 < w1 then ws1.set 1 (w1 - min (w1 - 8) e1) else ws1
    let e2 := if 0 < e1 ∧ 8 < w1 then e1 - min (w1 - 8) e1 else e1
    shrinkLoop e2 ws2

/-- Full width pipeline of `DeployWatchApp.render_table`: header lengths
of `["Commit", "Message", "Build", "Deploy", "Elapsed"]`, status columns
2 and 3, padding, then shrink. -/
def renderTableWidths (rows : List (List CellD)) (maxX : Nat) : List Nat :=
  shrinkToFit (padWidths (contentWidths [6, 7, 5, 6, 7] [2, 3] rows)) maxX

/-- Full width pipeline of `GHActionsApp.render_table`: header lengths
of `["Workflow", "Branch", "Status", "Conclusion", "Duration", "Commit"]`,
status column 2, padding, then shrink. -/
def renderTableWidthsGH (rows : List (List CellD)) (maxX : Nat) : List Nat :=
  shrinkToFitGH (padWidths (contentWidths [8, 6, 6, 10, 8, 6] [2] rows)) maxX

end TableLayout

/-- A width list fits a table of `n` columns in a terminal of width
`maxX`: `n` columns, total including the `n + 1` border/separator
characters at most `maxX`, and no column below the shrink floor 6. -/
def fitsWithin (ws : List Nat) (n maxX : Nat) : Prop :=
  ws.length = n ∧ ws.sum + ws.length + 1 ≤ maxX ∧ ∀ w ∈ ws, 6 ≤ w

/-! ## Theorems -/

namespace RenderProvider

theorem statusMapGet_eq_or_mem (raw : String) :
    statusMapGet raw = raw ∨
      statusMapGet raw ∈ ["pending", "building", "deploying", "live", "failed", "cancelled"] := by
  unfold statusMapGet
  cases h : STATUS_MAP.find? (fun p => p.1 == raw) with
  | none => left; rfl
  | some p =>
    right
    have hp : p ∈ STATUS_MAP := List.mem_of_find?_eq_some h
    simp only [Option.map_some', Option.getD_some]
    fin_cases hp <;> simp

theorem setStatusFields_cases (raw : String) (rec : DeployStatusPair) :
    ((setStatusFields raw rec).build_status.getD "" ∈ emittedEnum ∧
     (setStatusFields raw rec).deploy_status.getD "" ∈ emittedEnum) ∨
    ((setStatusFields raw rec).build_status = some raw ∧
     (setStatusFields raw rec).deploy_status = some raw) := by
  have hcases := statusMapGet_eq_or_mem raw
  simp only [setStatusFields]
  generalize hm : statusMapGet raw = m at *
  rcases hcases with h | h
  · subst h
    split_ifs <;>
      first
      | (right; simp; done)
      | (left; rcases ‹_ ∨ _› with rfl | rfl <;> simp [emittedEnum]; done)
      | (left; simp_all [emittedEnum]; done)
  · fin_cases h <;> (left; split_ifs <;> simp_all [emittedEnum])

/-- Claim C1 counterexample: the raw code `suspended` is not in the
lookup table; `cmd_list` passes it through unchanged into both status
fields instead of mapping it to `unknown`, so the emitted pair leaks the
raw code and lies outside the canonical enum. -/
theorem C1_counterexample :
    (setStatusFields "suspended" {}).build_status = some "suspended" ∧
    (setStatusFields "suspended" {}).deploy_status = some "suspended" ∧
    "suspended" ∉ canonicalEnum ∧
    (setStatusFields "suspended" {}).build_status ≠ some "unknown" := by
  refine ⟨rfl, rfl, by decide, by decide⟩

/-- Claim C1 (amended): for every raw code present in the provider's
lookup table, the status mapping of the `list` operation returns a
`(build_status, deploy_status)` pair drawn from the vocabulary
`pending | building | deploying | live | failed | cancelled | success`;
a raw code not resolved to one of those words passes through unchanged —
both components equal the raw code itself — rather than mapping to
`unknown`, and no input raises. -/
theorem C1_status_mapping (raw : String) (rec : DeployStatusPair)
    (hmem : raw ∈ STATUS_MAP.map Prod.fst) :
    ((setStatusFields raw rec).build_status.getD "" ∈ emittedEnum ∧
     (setStatusFields raw rec).deploy_status.getD "" ∈ emittedEnum) ∧
    ∀ raw2 : String,
      ((setStatusFields raw2 rec).build_status.getD "" ∈ emittedEnum ∧
       (setStatusFields raw2 rec).deploy_status.getD "" ∈ emittedEnum) ∨
      ((setStatusFields raw2 rec).build_status = some raw2 ∧
       (setStatusFields raw2 rec).deploy_status = some raw2) := by
  refine ⟨?_, fun raw2 => setStatusFields_cases raw2 rec⟩
  simp only [STATUS_MAP, List.map_cons, List.map_nil, List.mem_cons,
    List.not_mem_nil, or_false] at hmem
  rcases hmem with rfl | rfl | rfl | rfl | rfl | rfl | rfl | rfl
  · exact ⟨(by decide : ("pending" : String) ∈ emittedEnum),
      (by decide : ("pending" : String) ∈ emittedEnum)⟩
  · exact ⟨(by decide : ("building" : String) ∈ emittedEnum),
      (by decide : ("pending" : String) ∈ emittedEnum)⟩
  · exact ⟨(by decide : ("success" : String) ∈ emittedEnum),
      (by decide : ("deploying" : String) ∈ emittedEnum)⟩
  · exact ⟨(by decide : ("success" : String) ∈ emittedEnum),
      (by decide : ("live" : String) ∈ emittedEnum)⟩
  · exact ⟨(by decide : ("failed" : String) ∈ emittedEnum),
      (by decide : ("pending" : String) ∈ emittedEnum)⟩
  · exact ⟨(by decide : ("success" : String) ∈ emittedEnum),
      (by decide : ("failed" : String) ∈ emittedEnum)⟩
  · exact ⟨(by decide : ("cancelled" : String) ∈ emittedEnum),
      (by decide : ("cancelled" : String) ∈ emittedEnum)⟩
  · exact ⟨(by decide : ("cancelled" : String) ∈ emittedEnum),
      (by decide : ("cancelled" : String) ∈ emittedEnum)⟩

/-- Witness for C1: the in-table raw code `live` instantiates the theorem. -/
theorem C1_status_mapping_witness :
    ((setStatusFields "live" {}).build_status.getD "" ∈ emittedEnum ∧
     (setStatusFields "live" {}).deploy_status.getD "" ∈ emittedEnum) ∧
    ∀ raw2 : String,
      ((setStatusFields raw2 {}).build_status.getD "" ∈ emittedEnum ∧
       (setStatusFields raw2 {}).deploy_status.getD "" ∈ emittedEnum) ∨
      ((setStatusFields raw2 {}).build_status = some raw2 ∧
       (setStatusFields raw2 {}).deploy_status = some raw2) :=
  C1_status_mapping "live" {} (by decide)

/-- Claim C7: every branch of the status assignment sets both fields
together (neither is ever left at its unset default), and a raw code
that maps to the generic `failed` is split on the secondary raw code:
`build_failed` yields `(failed, pending)`, any other raw code mapping to
`failed` yields `(success, failed)`. -/
theorem C7_failed_split (rec : DeployStatusPair) (raw : String)
    (hfail : statusMapGet raw = "failed") :
    ((setStatusFields "build_failed" rec).build_status = some "failed" ∧
     (setStatusFields "build_failed" rec).deploy_status = some "pending") ∧
    (raw ≠ "build_failed" →
      (setStatusFields raw rec).build_status = some "success" ∧
      (setStatusFields raw rec).deploy_status = some "failed") ∧
    ∀ raw2 : String,
      (setStatusFields raw2 rec).build_status.isSome ∧
      (setStatusFields raw2 rec).deploy_status.isSome := by
  refine ⟨⟨rfl, rfl⟩, ?_, ?_⟩
  · intro hne
    simp [setStatusFields, hfail, hne]
  · intro raw2
    simp only [setStatusFields]
    split_ifs <;> simp

/-- Witness for C7: the raw code `update_failed` maps to `failed` and is
not `build_failed`, so it takes the deploy-phase side of the split. -/
theorem C7_failed_split_witness :
    statusMapGet "update_failed" = "failed" ∧
    ((setStatusFields "update_failed" {}).build_status = some "success" ∧
     (setStatusFields "update_failed" {}).deploy_status = some "failed") :=
  ⟨by decide, (C7_failed_split {} "update_failed" (by decide)).2.1 (by decide)⟩

end RenderProvider

theorem toString_intCast_nat (n : Nat) : toString ((n : Nat) : Int) = toString n := rfl

theorem fmt_duration_natCast (s : Nat) :
    GHActions.fmt_duration (some (s : Int)) = durationSpec s := by
  have h0 : ¬((s : Int) < 0) := by omega
  have e1 : ((s : Int) / 60) = ((s / 60 : Nat) : Int) := by omega
  have e2 : ((s : Int) % 60) = ((s % 60 : Nat) : Int) := by omega
  have e3 : ((s : Int) / 3600) = ((s / 3600 : Nat) : Int) := by omega
  have e4 : ((s : Int) % 3600 / 60) = ((s % 3600 / 60 : Nat) : Int) := by omega
  simp only [GHActions.fmt_duration, durationSpec, if_neg h0]
  rcases Nat.lt_or_ge s 60 with h | h
  · rw [if_pos (by omega : (s : Int) < 60), if_pos h, toString_intCast_nat]
  · rw [if_neg (by omega : ¬((s : Int) < 60)), if_neg (by omega : ¬(s < 60))]
    rcases Nat.lt_or_ge s 3600 with h2 | h2
    · rw [if_pos (by omega : (s : Int) < 3600), if_pos h2]
      simp only [e1, e2, toString_intCast_nat]
    · rw [if_neg (by omega : ¬((s : Int) < 3600)), if_neg (by omega : ¬(s < 3600))]
      simp only [e3, e4, toString_intCast_nat]

theorem elapsed_str_natCast (s : Nat) :
    WatchAgents.elapsed_str (s : Int) = durationSpec s := by
  have h0 : ¬((s : Int) < 0) := by omega
  have hbody : WatchAgents.elapsed_str (s : Int) = GHActions.fmt_duration (some (s : Int)) := by
    simp only [WatchAgents.elapsed_str, GHActions.fmt_duration, if_neg h0]
  rw [hbody, fmt_duration_natCast]

theorem fmt_duration_dash_eq (o : Option Int) :
    DashboardActions.fmt_duration_dash o = GHActions.fmt_duration o := rfl

/-- Claim C9: for every non-negative number of seconds, the three
duration formatters — `elapsed_str` in `watch-agents.py`, `fmt_duration`
in `watch-gh-actions.py`, and `_fmt_duration` in
`watch_dashboard/tabs/actions.py` — return the same string, of the form
`Ns` below one minute, `Mm Ss` below one hour, and `Hh Mm` otherwise. -/
theorem C9_duration_formatters_agree (s : Nat) :
    WatchAgents.elapsed_str (s : Int) = durationSpec s ∧
    GHActions.fmt_duration (some (s : Int)) = durationSpec s ∧
    DashboardActions.fmt_duration_dash (some (s : Int)) = durationSpec s := by
  refine ⟨elapsed_str_natCast s, fmt_duration_natCast s, ?_⟩
  rw [fmt_duration_dash_eq, fmt_duration_natCast]

namespace DashboardConfig

/-- Claim C10: `config_read` is total over file states — a missing file
and a malformed-JSON file both yield the empty dict rather than raising,
so `config_get_provider` returns `None` and an invalid configuration
file behaves exactly like an absent one. -/
theorem C10_config_read_total :
    config_read .missing = ([] : ConfigDict) ∧
    config_read .malformedJson = ([] : ConfigDict) ∧
    config_read .malformedJson = config_read .missing ∧
    config_get_provider .missing = none ∧
    config_get_provider .malformedJson = none :=
  ⟨rfl, rfl, rfl, rfl, rfl⟩

end DashboardConfig

namespace WatchDeploys

theorem parseStdoutLines_go (ls : List PLine) (acc : List RawRecord) :
    ls.foldl
      (fun records l =>
        match l with
        | .blank => records
        | .malformed _ => records
        | .record r => records ++ [r])
      acc = acc ++ ls.filterMap PLine.parsedRecord := by
  induction ls generalizing acc with
  | nil => simp
  | cons hd tl ih =>
    cases hd <;> simp [ih, PLine.parsedRecord, List.append_assoc]

theorem parseStdoutLines_eq_filterMap (ls : List PLine) :
    parseStdoutLines ls = ls.filterMap PLine.parsedRecord := by
  unfold parseStdoutLines
  simpa using parseStdoutLines_go ls []

/-- Claim C5 counterexample: a provider script that cannot be executed
(the executability pre-check fails) yields the empty-list success, not
the distinguished failure value `None`, so "returns None exactly when
the plugin ... cannot be executed" fails on this input. -/
theorem C5_counterexample :
    fetch_deploys true false (.completed 0 []) = some [] ∧
    fetch_deploys true false (.completed 0 []) ≠ none :=
  ⟨rfl, by simp [fetch_deploys]⟩

/-- Claim C5 (amended): `fetch_deploys` returns the failure value `None`
exactly when the plugin process times out, exits non-zero, or the
executable is missing at invocation (FileNotFoundError); an unconfigured
provider or a non-executable provider script yields an empty-list
success, as does a zero-exit run that emitted no records — both distinct
from the failure value. -/
theorem C5_failure_value (p e : Bool) (run : RunOutcome) :
    (fetch_deploys p e run = none ↔
      p = true ∧ e = true ∧
        (run = .timeoutExpired ∨ run = .fileNotFound ∨
          ∃ rc out, run = .completed rc out ∧ rc ≠ 0)) ∧
    fetch_deploys false e run = some [] ∧
    fetch_deploys true false run = some [] ∧
    fetch_deploys true true (.completed 0 []) = some [] := by
  refine ⟨?_, rfl, rfl, rfl⟩
  cases p <;> cases e <;> cases run <;> simp [fetch_deploys]

/-- Claim C6: with exit code zero the fetch succeeds and returns exactly
the records parsed from the well-formed stdout lines, in order; blank
and malformed lines are skipped without failing the fetch. In particular
one well-formed and one malformed line yield a success with exactly one
record. -/
theorem C6_malformed_lines_skipped (ls : List PLine) (r : RawRecord) (t : String) :
    fetch_deploys true true (.completed 0 ls) = some (ls.filterMap PLine.parsedRecord) ∧
    fetch_deploys true true (.completed 0 [.record r, .malformed t]) = some [r] := by
  constructor
  · show (if (0 : Int) ≠ 0 then none else some (parseStdoutLines ls)) = _
    rw [if_neg (by omega), parseStdoutLines_eq_filterMap]
  · rfl

/-- Claim C2: a failed fetch (`None`) leaves the cached records exactly
as they were and sets a non-empty fetch error; a successful fetch
(possibly with zero records) replaces the cached records wholesale with
the new list and clears the fetch error. The cache is never a mixture of
old and new records. -/
theorem C2_refresh_atomic (st : AppState) (now : Int) (records : List RawRecord) :
    ((do_refresh none now st).cached_records = st.cached_records ∧
     (do_refresh none now st).fetch_error = "Provider error" ∧
     (do_refresh none now st).fetch_error ≠ "") ∧
    ((do_refresh (some records) now st).cached_records = records ∧
     (do_refresh (some records) now st).fetch_error = "") := by
  exact ⟨⟨rfl, rfl, (by decide : ¬(("Provider error" : String) = ""))⟩, rfl, rfl⟩

end WatchDeploys

theorem adjust_scroll_spec (vis cursor scroll : Int)
    (hv : 1 ≤ vis) (hc : 0 ≤ cursor) (hs : 0 ≤ scroll) :
    scrollInv vis cursor (WatchBeads.adjust_scroll vis cursor scroll) := by
  unfold scrollInv WatchBeads.adjust_scroll
  split_ifs <;> omega

/-- Claim C4 counterexample: in `watch-agents.py` the scroll updates
after `j`/`k` are one-sided, so the window invariant is not established
from every state meeting the claim's side conditions. Reachable trace:
with `scroll_offset = 8` the list shrinks to 3 cards and `j` clamps the
selection to 2 leaving the scroll at 8; the list regrows to 20 and two
further `j` presses — each with `0 ≤ selected < row_count` and
`visible_rows = 3 ≥ 1` — end at `(selected, scroll) = (4, 8)`, where
`scroll_offset ≤ selected_index` fails after the adjustment. -/
theorem C4_counterexample :
    WatchAgents.move_down 3 3 10 8 = (2, 8) ∧
    WatchAgents.move_down 20 3 2 8 = (3, 8) ∧
    WatchAgents.move_down 20 3 3 8 = (4, 8) ∧
    ¬ scrollInv 3 4 8 := by decide

/-- Claim C4 (amended): `adjust_scroll` in `watch-beads.py` establishes
`0 ≤ scroll_offset` and
`scroll_offset ≤ selected_index < scroll_offset + visible_rows` from any
state with nonnegative scroll offset; in `watch-agents.py` the one-sided
scroll updates after `j`/`k` movement only preserve that invariant: when
it holds before the keypress it holds after, but they do not establish
it from states where the selection sits above the window. -/
theorem C4_ensure_visible (vis cursor scroll rowCount : Int)
    (hv : 1 ≤ vis) (hc : 0 ≤ cursor) (hrow : cursor < rowCount) (hs : 0 ≤ scroll) :
    scrollInv vis cursor (WatchBeads.adjust_scroll vis cursor scroll) ∧
    ∀ total sel scr : Int, 0 ≤ sel → sel < total → scrollInv vis sel scr →
      scrollInv vis (WatchAgents.move_down total vis sel scr).1
        (WatchAgents.move_down total vis sel scr).2 ∧
      scrollInv vis (WatchAgents.move_up total vis sel scr).1
        (WatchAgents.move_up total vis sel scr).2 := by
  refine ⟨adjust_scroll_spec vis cursor scroll hv hc hs, ?_⟩
  intro total sel scr h0 hlt hinv
  obtain ⟨hA, hB, hC⟩ := hinv
  constructor
  · show scrollInv vis (min (sel + 1) (total - 1))
      (if scr + vis ≤ min (sel + 1) (total - 1) then min (sel + 1) (total - 1) - vis + 1 else scr)
    unfold scrollInv
    split_ifs <;> omega
  · show scrollInv vis (max (sel - 1) 0)
      (if max (sel - 1) 0 < scr then max (sel - 1) 0 else scr)
    unfold scrollInv
    split_ifs <;> omega

/-- Witness for C4 at `(vis, cursor, scroll, rowCount) = (3, 2, 0, 5)`. -/
theorem C4_ensure_visible_witness :
    scrollInv 3 2 (WatchBeads.adjust_scroll 3 2 0) ∧
    ∀ total sel scr : Int, 0 ≤ sel → sel < total → scrollInv 3 sel scr →
      scrollInv 3 (WatchAgents.move_down total 3 sel scr).1
        (WatchAgents.move_down total 3 sel scr).2 ∧
      scrollInv 3 (WatchAgents.move_up total 3 sel scr).1
        (WatchAgents.move_up total 3 sel scr).2 :=
  C4_ensure_visible 3 2 0 5 (by decide) (by decide) (by decide) (by decide)

/-- Claim C8 counterexample: two refreshes that empty the list without
re-validating the viewport. A successful parse of zero tickets from
state (10 rows, cursor 7, scroll 5) resets the cursor but leaves the
scroll offset at the stale value 5, outside the valid range for row
count 0; a refresh that finds the `bd` binary missing empties the list
leaving even the cursor at its stale value 7. -/
theorem C8_counterexample :
    WatchBeads.beads_refresh_view (.parsed 0) ⟨10, 7, 5⟩ 3 = ⟨0, 0, 5⟩ ∧
    ¬ scrollInRange 0 5 ∧
    WatchBeads.beads_refresh_view .bdMissing ⟨10, 7, 5⟩ 3 = ⟨0, 7, 5⟩ ∧
    (WatchBeads.beads_refresh_view .bdMissing ⟨10, 7, 5⟩ 3).cursor ≠ 0 :=
  ⟨rfl, by decide, rfl, by decide⟩

/-- Claim C8 (amended): when a refresh successfully parses a nonempty
list, the selected index is clamped into `[0, row_count)` and the
ensure-visible adjustment run by the following render brings the scroll
offset into the valid range for the new row count (the viewport
invariant holds). Re-validation is otherwise partial: a successful
parse of an empty list resets the selected index to 0 but leaves the
scroll offset stale; the early-return paths that empty the list because
the `bd` binary or the `.beads` directory is missing leave both the
selected index and the scroll offset stale; and a failed `bd` run
leaves the row count and the selected index unchanged. -/
theorem C8_refresh_revalidates (outcome : WatchBeads.LoadOutcome)
    (st : WatchBeads.BeadsView) (vis : Int)
    (hv : 1 ≤ vis) (hc : 0 ≤ st.cursor) (hs : 0 ≤ st.scroll) :
    (∀ count : Int, outcome = .parsed count → 0 < count →
      (WatchBeads.beads_refresh_view outcome st vis).count = count ∧
      0 ≤ (WatchBeads.beads_refresh_view outcome st vis).cursor ∧
      (WatchBeads.beads_refresh_view outcome st vis).cursor < count ∧
      scrollInRange count (WatchBeads.beads_refresh_view outcome st vis).scroll ∧
      scrollInv vis (WatchBeads.beads_refresh_view outcome st vis).cursor
        (WatchBeads.beads_refresh_view outcome st vis).scroll) ∧
    (∀ count : Int, outcome = .parsed count → count = 0 →
      WatchBeads.beads_refresh_view outcome st vis = ⟨0, 0, st.scroll⟩) ∧
    (outcome = .bdMissing ∨ outcome = .beadsDirMissing →
      WatchBeads.beads_refresh_view outcome st vis = ⟨0, st.cursor, st.scroll⟩) ∧
    (outcome = .runFailed →
      (WatchBeads.beads_refresh_view outcome st vis).count = st.count ∧
      (WatchBeads.beads_refresh_view outcome st vis).cursor = st.cursor) := by
  refine ⟨?_, ?_, ?_, ?_⟩
  · intro count hout hpos
    subst hout
    have hcne : ¬(count = 0) := by omega
    have hclamp : 0 ≤ WatchBeads.load_tickets_clamp_cursor count st.cursor ∧
        WatchBeads.load_tickets_clamp_cursor count st.cursor < count := by
      unfold WatchBeads.load_tickets_clamp_cursor
      split_ifs <;> omega
    obtain ⟨hA, hB, hC⟩ := adjust_scroll_spec vis
      (WatchBeads.load_tickets_clamp_cursor count st.cursor) st.scroll hv hclamp.1 hs
    refine ⟨rfl, hclamp.1, hclamp.2, ?_, ?_⟩
    · show scrollInRange count (if count = 0 then st.scroll
        else WatchBeads.adjust_scroll vis (WatchBeads.load_tickets_clamp_cursor count st.cursor) st.scroll)
      rw [if_neg hcne]
      unfold scrollInRange
      have := hclamp.2
      exact ⟨hA, by omega⟩
    · show scrollInv vis (WatchBeads.load_tickets_clamp_cursor count st.cursor)
        (if count = 0 then st.scroll
          else WatchBeads.adjust_scroll vis (WatchBeads.load_tickets_clamp_cursor count st.cursor) st.scroll)
      rw [if_neg hcne]
      exact ⟨hA, hB, hC⟩
  · intro count hout hzero
    subst hout
    subst hzero
    rfl
  · intro h
    rcases h with h | h <;> subst h <;> rfl
  · intro h
    subst h
    exact ⟨rfl, rfl⟩

/-- Witness for C8: a parse of 4 tickets from state (2 rows, cursor 9,
scroll 2) with 3 visible rows. -/
theorem C8_refresh_revalidates_witness :
    (∀ count : Int, WatchBeads.LoadOutcome.parsed 4 = .parsed count → 0 < count →
      (WatchBeads.beads_refresh_view (.parsed 4) ⟨2, 9, 2⟩ 3).count = count ∧
      0 ≤ (WatchBeads.beads_refresh_view (.parsed 4) ⟨2, 9, 2⟩ 3).cursor ∧
      (WatchBeads.beads_refresh_view (.parsed 4) ⟨2, 9, 2⟩ 3).cursor < count ∧
      scrollInRange count (WatchBeads.beads_refresh_view (.parsed 4) ⟨2, 9, 2⟩ 3).scroll ∧
      scrollInv 3 (WatchBeads.beads_refresh_view (.parsed 4) ⟨2, 9, 2⟩ 3).cursor
        (WatchBeads.beads_refresh_view (.parsed 4) ⟨2, 9, 2⟩ 3).scroll) ∧
    (∀ count : Int, WatchBeads.LoadOutcome.parsed 4 = .parsed count → count = 0 →
      WatchBeads.beads_refresh_view (.parsed 4) ⟨2, 9, 2⟩ 3 = ⟨0, 0, 2⟩) ∧
    (WatchBeads.LoadOutcome.parsed 4 = .bdMissing ∨
        WatchBeads.LoadOutcome.parsed 4 = .beadsDirMissing →
      WatchBeads.beads_refresh_view (.parsed 4) ⟨2, 9, 2⟩ 3 = ⟨0, 9, 2⟩) ∧
    (WatchBeads.LoadOutcome.parsed 4 = .runFailed →
      (WatchBeads.beads_refresh_view (.parsed 4) ⟨2, 9, 2⟩ 3).count = 2 ∧
      (WatchBeads.beads_refresh_view (.parsed 4) ⟨2, 9, 2⟩ 3).cursor = 9) :=
  C8_refresh_revalidates (.parsed 4) ⟨2, 9, 2⟩ 3 (by decide) (by decide) (by decide)

namespace TableLayout

theorem updRow_length (sc : List Nat) :
    ∀ (ws : List Nat) (cs : List CellD) (i : Nat), (updRow sc ws cs i).length = ws.length := by
  intro ws
  induction ws with
  | nil => intro cs i; cases cs <;> rfl
  | cons a ws ih =>
    intro cs i
    cases cs with
    | nil => rfl
    | cons c cs => simp [updRow, ih]

theorem updRow_bound (sc : List Nat) (b : Nat) :
    ∀ (ws : List Nat) (cs : List CellD) (i : Nat),
      (∀ w ∈ ws, b ≤ w) → ∀ w ∈ updRow sc ws cs i, b ≤ w := by
  intro ws
  induction ws with
  | nil => intro cs i _ w hw; simp [updRow] at hw
  | cons a ws ih =>
    intro cs i h w hw
    cases cs with
    | nil => exact h w hw
    | cons c cs =>
      simp only [updRow] at hw
      rcases List.mem_cons.mp hw with rfl | hmem
      · have hb : b ≤ a := h a (List.mem_cons_self a ws)
        split_ifs <;> omega
      · exact ih cs (i + 1) (fun x hx => h x (List.mem_cons_of_mem a hx)) w hmem

theorem contentWidths_length (headers sc : List Nat) (rows : List (List CellD)) :
    (contentWidths headers sc rows).length = headers.length := by
  induction rows generalizing headers with
  | nil => rfl
  | cons r rows ih =>
    simp only [contentWidths, List.foldl_cons] at *
    rw [ih, updRow_length]

theorem contentWidths_bound (b : Nat) (headers sc : List Nat) (rows : List (List CellD))
    (h : ∀ w ∈ headers, b ≤ w) : ∀ w ∈ contentWidths headers sc rows, b ≤ w := by
  induction rows generalizing headers with
  | nil => exact h
  | cons r rows ih =>
    simp only [contentWidths, List.foldl_cons] at *
    exact ih (updRow sc headers r 0) (updRow_bound sc b headers r 0 h)

theorem padWidths_length (ws : List Nat) : (padWidths ws).length = ws.length := by
  simp [padWidths]

theorem padWidths_bound (b : Nat) (ws : List Nat) (h : ∀ w ∈ ws, b ≤ w) :
    ∀ w ∈ padWidths ws, b + 2 ≤ w := by
  intro w hw
  simp only [padWidths, List.mem_map] at hw
  obtain ⟨a, ha, rfl⟩ := hw
  have := h a ha
  omega

theorem sum_set_getD (ws : List Nat) (i v : Nat) (h : i < ws.length) :
    (ws.set i v).sum + ws.getD i 0 = ws.sum + v := by
  induction ws generalizing i with
  | nil => simp at h
  | cons a l ih =>
    cases i with
    | zero => simp [List.set]; omega
    | succ j =>
      simp only [List.set, List.sum_cons, List.getD_cons_succ]
      have := ih j (by simpa using h)
      omega

theorem set_bound (b : Nat) :
    ∀ (ws : List Nat) (i v : Nat), (∀ w ∈ ws, b ≤ w) → b ≤ v → ∀ w ∈ ws.set i v, b ≤ w := by
  intro ws
  induction ws with
  | nil => intro i v _ _ w hw; simp at hw
  | cons a ws ih =>
    intro i v h hv w hw
    cases i with
    | zero =>
      simp only [List.set] at hw
      rcases List.mem_cons.mp hw with rfl | hm
      · exact hv
      · exact h w (List.mem_cons_of_mem a hm)
    | succ j =>
      simp only [List.set] at hw
      rcases List.mem_cons.mp hw with rfl | hm
      · exact h w (List.mem_cons_self w ws)
      · exact ih j v (fun x hx => h x (List.mem_cons_of_mem a hx)) hv w hm

theorem getD_lt_length (ws : List Nat) (i : Nat) (h : 0 < ws.getD i 0) : i < ws.length := by
  induction ws generalizing i with
  | nil => simp [List.getD] at h
  | cons a ws ih =>
    cases i with
    | zero => simp
    | succ j =>
      simp only [List.getD_cons_succ] at h
      have := ih j h
      simp only [List.length_cons]
      omega

theorem findWidestAux_some_isSome :
    ∀ (ws : List Nat) (i b w0 : Nat), (findWidestAux ws i (some b) w0).isSome := by
  intro ws
  induction ws with
  | nil => intro i b w0; rfl
  | cons w rest ih =>
    intro i b w0
    simp only [findWidestAux]
    split_ifs <;> apply ih

theorem findWidest_none_bound :
    ∀ (ws : List Nat) (i : Nat), findWidestAux ws i none 0 = none → ∀ w ∈ ws, w ≤ 6 := by
  intro ws
  induction ws with
  | nil => intro i _ w hw; simp at hw
  | cons a rest ih =>
    intro i h w hw
    simp only [findWidestAux] at h
    by_cases hc : 6 < a ∧ 0 < a
    · rw [if_pos hc] at h
      exfalso
      have := findWidestAux_some_isSome rest (i + 1) i a
      rw [h] at this
      simp at this
    · rw [if_neg hc] at h
      rcases List.mem_cons.mp hw with rfl | hm
      · push_neg at hc; omega
      · exact ih (i + 1) h w hm

theorem findWidestAux_some_spec :
    ∀ (ws : List Nat) (off : Nat) (best : Option Nat) (bestW j : Nat),
      findWidestAux ws off best bestW = some j →
      best = some j ∨ (off ≤ j ∧ j - off < ws.length ∧ 6 < ws.getD (j - off) 0) := by
  intro ws
  induction ws with
  | nil => intro off best bestW j h; left; exact h
  | cons a rest ih =>
    intro off best bestW j h
    simp only [findWidestAux] at h
    by_cases hc : 6 < a ∧ bestW < a
    · rw [if_pos hc] at h
      rcases ih (off + 1) (some off) a j h with heq | hr
      · right
        have hoj : off = j := by injection heq
        subst hoj
        exact ⟨le_refl off, by simp, by simpa using hc.1⟩
      · right
        obtain ⟨h1, h2, h3⟩ := hr
        refine ⟨by omega, ?_, ?_⟩
        · simp only [List.length_cons]; omega
        · have hj : j - off = (j - (off + 1)) + 1 := by omega
          rw [hj, List.getD_cons_succ]
          exact h3
    · rw [if_neg hc] at h
      rcases ih (off + 1) best bestW j h with heq | hr
      · left; exact heq
      · right
        obtain ⟨h1, h2, h3⟩ := hr
        refine ⟨by omega, ?_, ?_⟩
        · simp only [List.length_cons]; omega
        · have hj : j - off = (j - (off + 1)) + 1 := by omega
          rw [hj, List.getD_cons_succ]
          exact h3

theorem findWidest_some_spec (ws : List Nat) (j : Nat) (h : findWidest ws = some j) :
    j < ws.length ∧ 6 < ws.getD j 0 := by
  rcases findWidestAux_some_spec ws 0 none 0 j h with h' | h'
  · exact absurd h' (by simp)
  · obtain ⟨-, h2, h3⟩ := h'
    rw [Nat.sub_zero] at h2 h3
    exact ⟨h2, h3⟩

theorem shrinkLoop_length : ∀ (e : Nat) (ws : List Nat), (shrinkLoop e ws).length = ws.length := by
  intro e
  induction e with
  | zero => intro ws; rfl
  | succ e ih =>
    intro ws
    simp only [shrinkLoop]
    cases h : findWidest ws with
    | none => rfl
    | some i =>
      rw [ih]
      simp [decAt]

theorem shrinkLoop_bound :
    ∀ (e : Nat) (ws : List Nat), (∀ w ∈ ws, 6 ≤ w) → ∀ w ∈ shrinkLoop e ws, 6 ≤ w := by
  intro e
  induction e with
  | zero => intro ws h; exact h
  | succ e ih =>
    intro ws h
    simp only [shrinkLoop]
    cases hf : findWidest ws with
    | none => exact h
    | some i =>
      apply ih
      have h6 := (findWidest_some_spec ws i hf).2
      unfold decAt
      exact set_bound 6 ws i (ws.getD i 0 - 1) h (by omega)

theorem all_eq_six_sum (ws : List Nat) (h6 : ∀ w ∈ ws, w ≤ 6) (hge : ∀ w ∈ ws, 6 ≤ w) :
    ws.sum = 6 * ws.length := by
  induction ws with
  | nil => simp
  | cons a rest ih =>
    have ha : a = 6 :=
      le_antisymm (h6 a (List.mem_cons_self a rest)) (hge a (List.mem_cons_self a rest))
    have ihr := ih (fun w hw => h6 w (List.mem_cons_of_mem a hw))
      (fun w hw => hge w (List.mem_cons_of_mem a hw))
    simp only [List.sum_cons, List.length_cons, ha, ihr]
    ring

theorem shrinkLoop_sum :
    ∀ (e : Nat) (ws : List Nat), (∀ w ∈ ws, 6 ≤ w) →
      (shrinkLoop e ws).sum + e ≤ ws.sum ∨ (shrinkLoop e ws).sum = 6 * ws.length := by
  intro e
  induction e with
  | zero => intro ws _; left; simp [shrinkLoop]
  | succ e ih =>
    intro ws h
    simp only [shrinkLoop]
    cases hf : findWidest ws with
    | none =>
      right
      exact all_eq_six_sum ws (findWidest_none_bound ws 0 hf) h
    | some i =>
      show (shrinkLoop e (decAt ws i)).sum + (e + 1) ≤ ws.sum ∨
        (shrinkLoop e (decAt ws i)).sum = 6 * ws.length
      obtain ⟨hi, h6⟩ := findWidest_some_spec ws i hf
      have hmin2 : ∀ w ∈ decAt ws i, 6 ≤ w := by
        unfold decAt
        exact set_bound 6 ws i (ws.getD i 0 - 1) h (by omega)
      have hsum : (decAt ws i).sum + 1 = ws.sum := by
        unfold decAt
        have := sum_set_getD ws i (ws.getD i 0 - 1) hi
        omega
      have hlen : (decAt ws i).length = ws.length := by unfold decAt; simp
      rcases ih (decAt ws i) hmin2 with hl | hr
      · left; omega
      · right; rw [hr, hlen]

theorem shrink_phase (ws : List Nat) (i red : Nat) (hi : i < ws.length)
    (hmin : ∀ w ∈ ws, 6 ≤ w) (h6 : 6 ≤ ws.getD i 0) (hred : red ≤ ws.getD i 0 - 6) :
    (ws.set i (ws.getD i 0 - red)).length = ws.length ∧
    (ws.set i (ws.getD i 0 - red)).sum + red = ws.sum ∧
    ∀ w ∈ ws.set i (ws.getD i 0 - red), 6 ≤ w := by
  refine ⟨by simp, ?_, set_bound 6 ws i (ws.getD i 0 - red) hmin (by omega)⟩
  have := sum_set_getD ws i (ws.getD i 0 - red) hi
  omega

theorem shrinkToFit_spec (ws : List Nat) (maxX : Nat)
    (hmin : ∀ w ∈ ws, 6 ≤ w) (hW : 6 * ws.length + ws.length + 1 ≤ maxX) :
    fitsWithin (shrinkToFit ws maxX) ws.length maxX := by
  unfold fitsWithin
  simp only [shrinkToFit]
  by_cases ht : ws.sum + ws.length + 1 ≤ maxX
  · rw [if_pos ht]
    exact ⟨rfl, ht, hmin⟩
  · rw [if_neg ht]
    push_neg at ht
    by_cases h12 : 12 < ws.getD 1 0
    · rw [if_pos h12]
      have hi1 : 1 < ws.length := getD_lt_length ws 1 (by omega)
      obtain ⟨hlen1, hsum1, hmin1⟩ := shrink_phase ws 1
        (min (ws.getD 1 0 - 12) (ws.sum + ws.length + 1 - maxX)) hi1 hmin (by omega) (by omega)
      have hlenL := shrinkLoop_length
        ((ws.sum + ws.length + 1 - maxX) - min (ws.getD 1 0 - 12) (ws.sum + ws.length + 1 - maxX))
        (ws.set 1 (ws.getD 1 0 - min (ws.getD 1 0 - 12) (ws.sum + ws.length + 1 - maxX)))
      have hminL := shrinkLoop_bound
        ((ws.sum + ws.length + 1 - maxX) - min (ws.getD 1 0 - 12) (ws.sum + ws.length + 1 - maxX))
        (ws.set 1 (ws.getD 1 0 - min (ws.getD 1 0 - 12) (ws.sum + ws.length + 1 - maxX))) hmin1
      rcases shrinkLoop_sum
        ((ws.sum + ws.length + 1 - maxX) - min (ws.getD 1 0 - 12) (ws.sum + ws.length + 1 - maxX))
        (ws.set 1 (ws.getD 1 0 - min (ws.getD 1 0 - 12) (ws.sum + ws.length + 1 - maxX)))
        hmin1 with hs | hs
      · refine ⟨by rw [hlenL, hlen1], ?_, hminL⟩
        rw [hlenL, hlen1]
        omega
      · refine ⟨by rw [hlenL, hlen1], ?_, hminL⟩
        rw [hlenL, hlen1, hs, hlen1]
        omega
    · rw [if_neg h12]
      have hlenL := shrinkLoop_length (ws.sum + ws.length + 1 - maxX) ws
      have hminL := shrinkLoop_bound (ws.sum + ws.length + 1 - maxX) ws hmin
      rcases shrinkLoop_sum (ws.sum + ws.length + 1 - maxX) ws hmin with hs | hs
      · refine ⟨hlenL, ?_, hminL⟩
        rw [hlenL]
        omega
      · refine ⟨hlenL, ?_, hminL⟩
        rw [hlenL, hs]
        omega

theorem shrinkToFitGH_spec (ws : List Nat) (maxX : Nat)
    (hmin : ∀ w ∈ ws, 6 ≤ w) (hW : 6 * ws.length + ws.length + 1 ≤ maxX) :
    fitsWithin (shrinkToFitGH ws maxX) ws.length maxX := by
  unfold fitsWithin
  simp only [shrinkToFitGH]
  by_cases ht : ws.sum + ws.length + 1 ≤ maxX
  · rw [if_pos ht]
    exact ⟨rfl, ht, hmin⟩
  · rw [if_neg ht]
    push_neg at ht
    -- phase 1: Workflow column (index 0) down to 12
    by_cases h0 : 12 < ws.getD 0 0
    case pos =>
      rw [if_pos h0, if_pos h0]
      have hi0 : 0 < ws.length := getD_lt_length ws 0 (by omega)
      obtain ⟨hlen1, hsum1, hmin1⟩ := shrink_phase ws 0
        (min (ws.getD 0 0 - 12) (ws.sum + ws.length + 1 - maxX)) hi0 hmin (by omega) (by omega)
      -- phase 2 on the updated list
      generalize hws1 : ws.set 0 (ws.getD 0 0 - min (ws.getD 0 0 - 12) (ws.sum + ws.length + 1 - maxX)) = ws1 at *
      generalize he1 : (ws.sum + ws.length + 1 - maxX) - min (ws.getD 0 0 - 12) (ws.sum + ws.length + 1 - maxX) = e1 at *
      by_cases h1 : 0 < e1 ∧ 8 < ws1.getD 1 0
      case pos =>
        rw [if_pos h1, if_pos h1]
        have hi1 : 1 < ws1.length := getD_lt_length ws1 1 (by omega)
        obtain ⟨hlen2, hsum2, hmin2⟩ := shrink_phase ws1 1
          (min (ws1.getD 1 0 - 8) e1) hi1 hmin1 (by omega) (by omega)
        have hlenL := shrinkLoop_length (e1 - min (ws1.getD 1 0 - 8) e1)
          (ws1.set 1 (ws1.getD 1 0 - min (ws1.getD 1 0 - 8) e1))
        have hminL := shrinkLoop_bound (e1 - min (ws1.getD 1 0 - 8) e1)
          (ws1.set 1 (ws1.getD 1 0 - min (ws1.getD 1 0 - 8) e1)) hmin2
        rcases shrinkLoop_sum (e1 - min (ws1.getD 1 0 - 8) e1)
          (ws1.set 1 (ws1.getD 1 0 - min (ws1.getD 1 0 - 8) e1)) hmin2 with hs | hs
        · refine ⟨by rw [hlenL, hlen2, hlen1], ?_, hminL⟩
          rw [hlenL, hlen2, hlen1]
          omega
        · refine ⟨by rw [hlenL, hlen2, hlen1], ?_, hminL⟩
          rw [hlenL, hlen2, hlen1, hs, hlen2, hlen1]
          omega
      case neg =>
        rw [if_neg h1, if_neg h1]
        have hlenL := shrinkLoop_length e1 ws1
        have hminL := shrinkLoop_bound e1 ws1 hmin1
        rcases shrinkLoop_sum e1 ws1 hmin1 with hs | hs
        · refine ⟨by rw [hlenL, hlen1], ?_, hminL⟩
          rw [hlenL, hlen1]
          omega
        · refine ⟨by rw [hlenL, hlen1], ?_, hminL⟩
          rw [hlenL, hlen1, hs, hlen1]
          omega
    case neg =>
      rw [if_neg h0, if_neg h0]
      by_cases h1 : 0 < ws.sum + ws.length + 1 - maxX ∧ 8 < ws.getD 1 0
      case pos =>
        rw [if_pos h1, if_pos h1]
        have hi1 : 1 < ws.length := getD_lt_length ws 1 (by omega)
        obtain ⟨hlen2, hsum2, hmin2⟩ := shrink_phase ws 1
          (min (ws.getD 1 0 - 8) (ws.sum + ws.length + 1 - maxX)) hi1 hmin (by omega) (by omega)
        have hlenL := shrinkLoop_length
          ((ws.sum + ws.length + 1 - maxX) - min (ws.getD 1 0 - 8) (ws.sum + ws.length + 1 - maxX))
          (ws.set 1 (ws.getD 1 0 - min (ws.getD 1 0 - 8) (ws.sum + ws.length + 1 - maxX)))
        have hminL := shrinkLoop_bound
          ((ws.sum + ws.length + 1 - maxX) - min (ws.getD 1 0 - 8) (ws.sum + ws.length + 1 - maxX))
          (ws.set 1 (ws.getD 1 0 - min (ws.getD 1 0 - 8) (ws.sum + ws.length + 1 - maxX))) hmin2
        rcases shrinkLoop_sum
          ((ws.sum + ws.length + 1 - maxX) - min (ws.getD 1 0 - 8) (ws.sum + ws.length + 1 - maxX))
          (ws.set 1 (ws.getD 1 0 - min (ws.getD 1 0 - 8) (ws.sum + ws.length + 1 - maxX)))
          hmin2 with hs | hs
        · refine ⟨by rw [hlenL, hlen2], ?_, hminL⟩
          rw [hlenL, hlen2]
          omega
        · refine ⟨by rw [hlenL, hlen2], ?_, hminL⟩
          rw [hlenL, hlen2, hs, hlen2]
          omega
      case neg =>
        rw [if_neg h1, if_neg h1]
        have hlenL := shrinkLoop_length (ws.sum + ws.length + 1 - maxX) ws
        have hminL := shrinkLoop_bound (ws.sum + ws.length + 1 - maxX) ws hmin
        rcases shrinkLoop_sum (ws.sum + ws.length + 1 - maxX) ws hmin with hs | hs
        · refine ⟨hlenL, ?_, hminL⟩
          rw [hlenL]
          omega
        · refine ⟨hlenL, ?_, hminL⟩
          rw [hlenL, hs]
          omega

end TableLayout

/-- Claim C3: for every table content and every terminal width at least
the sum of the per-column shrink floors (6 per column) plus the
separator characters, the column-width computation of
`DeployWatchApp.render_table` (5 columns, so width at least 36) and of
`GHActionsApp.render_table` (6 columns, so width at least 43) —
content-based widths plus padding, then priority shrinking of the
message columns, then the iterative widest-first shrink with leftmost
tie-break — terminates with widths whose sum including separators is at
most the terminal width and with no column below the floor. -/
theorem C3_layout_fits (rows rowsGH : List (List TableLayout.CellD)) (maxX maxXGH : Nat)
    (hW : 36 ≤ maxX) (hWGH : 43 ≤ maxXGH) :
    fitsWithin (TableLayout.renderTableWidths rows maxX) 5 maxX ∧
    fitsWithin (TableLayout.renderTableWidthsGH rowsGH maxXGH) 6 maxXGH := by
  constructor
  · unfold TableLayout.renderTableWidths
    have hl : (TableLayout.padWidths (TableLayout.contentWidths [6, 7, 5, 6, 7] [2, 3] rows)).length = 5 := by
      rw [TableLayout.padWidths_length, TableLayout.contentWidths_length]
      rfl
    have hb : ∀ w ∈ TableLayout.padWidths (TableLayout.contentWidths [6, 7, 5, 6, 7] [2, 3] rows), 6 ≤ w := by
      intro w hw
      have h5 : ∀ w ∈ TableLayout.contentWidths [6, 7, 5, 6, 7] [2, 3] rows, 5 ≤ w :=
        TableLayout.contentWidths_bound 5 [6, 7, 5, 6, 7] [2, 3] rows (by decide)
      have := TableLayout.padWidths_bound 5 _ h5 w hw
      omega
    have hspec := TableLayout.shrinkToFit_spec
      (TableLayout.padWidths (TableLayout.contentWidths [6, 7, 5, 6, 7] [2, 3] rows)) maxX hb
      (by rw [hl]; omega)
    rw [hl] at hspec
    exact hspec
  · unfold TableLayout.renderTableWidthsGH
    have hl : (TableLayout.padWidths (TableLayout.contentWidths [8, 6, 6, 10, 8, 6] [2] rowsGH)).length = 6 := by
      rw [TableLayout.padWidths_length, TableLayout.contentWidths_length]
      rfl
    have hb : ∀ w ∈ TableLayout.padWidths (TableLayout.contentWidths [8, 6, 6, 10, 8, 6] [2] rowsGH), 6 ≤ w := by
      intro w hw
      have h6 : ∀ w ∈ TableLayout.contentWidths [8, 6, 6, 10, 8, 6] [2] rowsGH, 6 ≤ w :=
        TableLayout.contentWidths_bound 6 [8, 6, 6, 10, 8, 6] [2] rowsGH (by decide)
      have := TableLayout.padWidths_bound 6 _ h6 w hw
      omega
    have hspec := TableLayout.shrinkToFitGH_spec
      (TableLayout.padWidths (TableLayout.contentWidths [8, 6, 6, 10, 8, 6] [2] rowsGH)) maxXGH hb
      (by rw [hl]; omega)
    rw [hl] at hspec
    exact hspec

/-- Witness for C3 with empty row lists and terminal width 80. -/
theorem C3_layout_fits_witness :
    fitsWithin (TableLayout.renderTableWidths [] 80) 5 80 ∧
    fitsWithin (TableLayout.renderTableWidthsGH [] 80) 6 80 :=
  C3_layout_fits [] [] 80 80 (by decide) (by decide)
